import Mathlib

/-!
Shallow embedding of the llama-api gateway, verified against its
natural-language specification.

Source files embedded here:
* `src/llama_api/server/routers/v1.py` — dispatcher: worker ranking,
  worker selection, semaphore acquire/release control flow.
* `src/llama_api/modules/llama_cpp.py` — the generation loop
  `_generate_text`, UTF-8 resynchronization, stop-string handling,
  and the prefix-cache load/store (`_load_cache`).
* `src/llama_api/server/pools/llama.py` — `get_model_names`.

Token ids are `Nat`; raw bytes are `List Nat`; decoded text is a
`List Nat` of Unicode code points.  Python exceptions are modelled with
`Except`.
-/

namespace LlamaApi

/-! ## Dispatcher: worker metadata and ranking (`v1.py`) -/

/-- `WixMetadata` from `v1.py`: worker index, the affinity key of the model
it is currently processing (`processed_key`), and its semaphore, modelled
by the current availability (`semaphore.value` in anyio: the number of free
permits). -/
structure WixMetadata where
  wix : Nat
  processed_key : Option String
  semaphore_value : Nat
deriving DecidableEq, Repr

/-- `get_worker_rank` from `v1.py` lines 78-90.  Lower rank means higher
priority of the worker to process the request. -/
def get_worker_rank (max_semaphores : Nat) (meta : WixMetadata)
    (request_key : Option String) : Int :=
  if request_key == meta.processed_key then -2
  else if request_key.isNone || meta.processed_key.isNone then -1
  else (max_semaphores : Int) - (meta.semaphore_value : Int)

/-- The two failure modes of the selection step in `get_wix_with_semaphore`:
Python's `min` of an empty sequence raises `ValueError` (`emptyMin`), and
the explicit `LookupError("No available wix")` (`noAvailableWorker`). -/
inductive SelectErr where
  | emptyMin
  | noAvailableWorker
deriving DecidableEq, Repr

/-- The list `worker_ranks` computed in `get_wix_with_semaphore`
(`v1.py` line 105). -/
def worker_ranks (max_semaphores : Nat) (metas : List WixMetadata)
    (request_key : Option String) : List Int :=
  metas.map (fun m => get_worker_rank max_semaphores m request_key)

/-- The list `candidates` computed in `get_wix_with_semaphore`
(`v1.py` line 111): the indices whose rank equals `min_rank`. -/
def select_candidates (ranks : List Int) (min_rank : Int) : List Nat :=
  (List.range ranks.length).filter (fun i => ranks.getD i 0 == min_rank)

/-- The pure selection part of `get_wix_with_semaphore` (`v1.py` lines
105-114): compute all ranks, take the minimum (Python `min` raises on an
empty sequence, modelled by `.error .emptyMin`), filter the tied minima,
raise `LookupError` if none, and pick one.  `random.choice` is modelled by
the index `pick`, reduced modulo the candidate count. -/
def select_worker (max_semaphores : Nat) (metas : List WixMetadata)
    (request_key : Option String) (pick : Nat) : Except SelectErr Nat :=
  let ranks := worker_ranks max_semaphores metas request_key
  match ranks.min? with
  | none => .error .emptyMin
  | some min_rank =>
    match select_candidates ranks min_rank with
    | [] => .error .noAvailableWorker
    | c :: cs => .ok ((c :: cs).getD (pick % (c :: cs).length) c)

/-! ## Dispatcher: semaphore acquire/release control flow (`v1.py`) -/

/-- A semaphore operation on worker `wix`, for recording traces of the
dispatcher's acquire/release behaviour. -/
inductive SemOp where
  | acquire (wix : Nat)
  | release (wix : Nat)
deriving DecidableEq, Repr

/-- Outcome of one dispatched request. -/
inductive ReqResult where
  | ok
  | cancelled
  | failed
deriving DecidableEq, Repr

/-- What the request body / worker job does after the semaphore is held. -/
inductive BodyOutcome where
  | success
  | raises
deriving DecidableEq, Repr

/-- The tail of `get_wix_with_semaphore` (`v1.py` lines 116-123) once a
worker `wix` has been chosen: `await wix_meta.semaphore.acquire()`, then
`if await request.is_disconnected(): raise get_cancelled_exc_class()()`,
then return `wix`.  The returned trace records the semaphore operations
performed; note that the disconnect branch raises without releasing. -/
def get_wix_with_semaphore (wix : Nat) (disconnectedAfterAcquire : Bool) :
    Except Unit Nat × List SemOp :=
  if disconnectedAfterAcquire then (.error (), [SemOp.acquire wix])
  else (.ok wix, [SemOp.acquire wix])

/-- The semaphore-relevant control flow of
`create_chat_completion_or_completion` (`v1.py` lines 161-242), shared in
shape with `create_embedding` and `get_models`: `wix = None`, then inside
`try`, `wix = await get_wix_with_semaphore(...)` and the body; in
`finally`, the semaphore is released only when `wix is not None`.  When
`get_wix_with_semaphore` raises, the assignment to `wix` never happened,
so the `finally` block releases nothing. -/
def create_chat_completion_or_completion (wix : Nat)
    (disconnectedAfterAcquire : Bool) (body : BodyOutcome) :
    ReqResult × List SemOp :=
  match get_wix_with_semaphore wix disconnectedAfterAcquire with
  | (.error _, ops) => (.cancelled, ops)
  | (.ok w, ops) =>
    match body with
    | .success => (.ok, ops ++ [SemOp.release w])
    | .raises => (.failed, ops ++ [SemOp.release w])

/-! ## UTF-8 decoding (Python `bytes.decode()` in `llama_cpp.py`) -/

/-- A UTF-8 continuation byte: `0x80 ≤ b ≤ 0xBF`. -/
def isCont (b : Nat) : Bool := 0x80 ≤ b && b ≤ 0xBF

/-- Strict UTF-8 decoding of a byte list into Unicode code points, as
Python's `bytes.decode()` (errors="strict"): rejects overlong encodings,
surrogates, code points above `0x10FFFF`, stray continuation bytes, and
truncated multi-byte sequences.  `none` models `UnicodeDecodeError`. -/
def utf8Decode : List Nat → Option (List Nat)
  | [] => some []
  | b :: rest =>
    if b < 0x80 then (utf8Decode rest).map (fun t => b :: t)
    else if b < 0xC2 then none
    else if b < 0xE0 then
      match rest with
      | c1 :: r =>
        if isCont c1 then
          (utf8Decode r).map (fun t => ((b - 0xC0) * 0x40 + (c1 - 0x80)) :: t)
        else none
      | [] => none
    else if b < 0xF0 then
      match rest with
      | c1 :: c2 :: r =>
        if (if b == 0xE0 then decide (0xA0 ≤ c1) && decide (c1 ≤ 0xBF)
            else if b == 0xED then decide (0x80 ≤ c1) && decide (c1 ≤ 0x9F)
            else isCont c1) && isCont c2 then
          (utf8Decode r).map
            (fun t =>
              ((b - 0xE0) * 0x1000 + (c1 - 0x80) * 0x40 + (c2 - 0x80)) :: t)
        else none
      | _ => none
    else if b < 0xF5 then
      match rest with
      | c1 :: c2 :: c3 :: r =>
        if (if b == 0xF0 then decide (0x90 ≤ c1) && decide (c1 ≤ 0xBF)
            else if b == 0xF4 then decide (0x80 ≤ c1) && decide (c1 ≤ 0x8F)
            else isCont c1) && isCont c2 && isCont c3 then
          (utf8Decode r).map
            (fun t =>
              ((b - 0xF0) * 0x40000 + (c1 - 0x80) * 0x1000
                + (c2 - 0x80) * 0x40 + (c3 - 0x80)) :: t)
        else none
      | _ => none
    else none

/-! ## Stop-string checker

The method `stop_checker` lives in `llama_api/modules/base.py`, which is
not part of the sources here; only its caller `_generate_text`
(`llama_cpp.py`) is.  It is modelled from the spec. -/

/-- `pat` occurs at the head of `l`. -/
def startsWith : List Nat → List Nat → Bool
  | _, [] => true
  | [], _ :: _ => false
  | a :: l, b :: p => a == b && startsWith l p

/-- `pat` occurs as a contiguous sublist of `l`. -/
def containsSub (l pat : List Nat) : Bool :=
  startsWith l pat ||
    match l with
    | [] => false
    | _ :: t => containsSub t pat

/-- `l` ends with `s`. -/
def endsWith (l s : List Nat) : Bool := startsWith l.reverse s.reverse

/-- `text` ends with a nonempty proper leading part of some stop string. -/
def hasPartialStop (stops : List (List Nat)) (text : List Nat) : Bool :=
  stops.any (fun s =>
    (List.range s.length).any (fun k => k != 0 && endsWith text (s.take k)))

/-- Modelled from the spec: the stop-string checker of
`llama_api/modules/base.py` (absent from the sources; only its caller in
`llama_cpp.py` is present).  Per the spec (§4.3): if the candidate text
contains a full stop string, report a match (`some true`; the caller
breaks); else if it ends with a proper prefix of a stop string, report a
partial match (`some false`; the caller withholds the text); else report
clear (`none`; the caller yields).  The encoding matches the caller's
tests `stop_status is None` / `stop_status is True` in `llama_cpp.py`
lines 239-246. -/
def stop_checker (stops : List (List Nat)) (text : List Nat) : Option Bool :=
  if stops.any (fun s => containsSub text s) then some true
  else if hasPartialStop stops text then some false
  else none

/-! ## The generation loop `_generate_text` (`llama_cpp.py` lines 148-256) -/

/-- The mutable state of one run of `_generate_text`: the generated token
ids (`generated_ids`), the status counters/accumulators of the
`CompletionStatus` record (`generated_tokens`, `generated_text`), the
rolling byte buffer (`byte_array`), the stop-checker text buffer
(`text_buffer`), the chunks yielded so far, and whether the loop has
terminated (`break` / interruption / EOS). -/
structure GenState where
  generated_ids : List Nat
  generated_tokens : Nat
  byte_array : List Nat
  text_buffer : List Nat
  generated_text : List Nat
  yields : List (List Nat)
  finished : Bool
deriving DecidableEq, Repr

/-- The initial state: fresh buffers, a freshly registered completion
status (`generated_tokens = 0`, `generated_text` empty). -/
def initGenState : GenState :=
  ⟨[], 0, [], [], [], [], false⟩

/-- One iteration of the `for` loop of `_generate_text` (`llama_cpp.py`
lines 196-246) on input `(interrupted, tok)`: `interrupted` is the value
`check_interruption` observes at this step, `tok` the token id produced by
`client.generate`.  A finished state absorbs further input (the Python
loop has already been left by `break`). -/
def genStep (stops : List (List Nat)) (detok : Nat → List Nat) (eos : Nat)
    (s : GenState) (x : Bool × Nat) : GenState :=
  if s.finished then s
  else if x.1 || x.2 == eos then { s with finished := true }
  else
    let s1 : GenState :=
      { s with
        generated_ids := s.generated_ids ++ [x.2]
        generated_tokens := s.generated_tokens + 1 }
    let piece := detok x.2
    match utf8Decode (s1.byte_array ++ piece) with
    | none => { s1 with byte_array := s1.byte_array ++ piece }
    | some decoded =>
      let text_to_yield := s1.text_buffer ++ decoded
      let s2 : GenState := { s1 with byte_array := [] }
      match stop_checker stops text_to_yield with
      | none =>
        { s2 with
          text_buffer := []
          generated_text := s2.generated_text ++ text_to_yield
          yields := s2.yields ++ [text_to_yield] }
      | some true => { s2 with finished := true }
      | some false => { s2 with text_buffer := text_to_yield }

/-- The whole `for` loop: `zip(range(settings.max_tokens), ...)` caps the
stream at `max_tokens` items; each item is then processed by `genStep`. -/
def genRun (stops : List (List Nat)) (detok : Nat → List Nat) (eos : Nat)
    (input : List (Bool × Nat)) (max_tokens : Nat) (init : GenState) :
    GenState :=
  (input.take max_tokens).foldl (genStep stops detok eos) init

/-! ## Prefix cache: `_load_cache` and the write-back (`llama_cpp.py`) -/

/-- Errors arising from the external cache during the lookup phase:
`keyError` is Python's `KeyError` (missing key — `LlamaRAMCache.__getitem__`
raises it when no key shares a prefix with the request); `otherError`
stands for any other exception (e.g. a disk-cache deserialization
failure). -/
inductive CacheErr where
  | keyError
  | otherError
deriving DecidableEq, Repr

/-- A cache entry (`llama_cpp.LlamaState`): the token ids it was saved
for, and an identifier for the serialized backend state. -/
structure CacheItem where
  input_ids : List Nat
  state_id : Nat
deriving DecidableEq, Repr

/-- The observable state of `llama_cpp.Llama` used by `_load_cache`:
`input_ids` is `client._input_ids` (the last-evaluated token sequence),
and `loads` logs every `client.load_state(...)` call. -/
structure LlamaClient where
  input_ids : List Nat
  loads : List CacheItem
deriving DecidableEq, Repr

/-- `client.load_state(item)`, recorded in the load log. -/
def load_state (client : LlamaClient) (item : CacheItem) : LlamaClient :=
  { client with loads := client.loads ++ [item] }

/-- `llama_cpp.Llama.longest_token_prefix(a, b)` (external library,
called from `_load_cache`): the number of leading positions where the two
token sequences agree. -/
def longest_token_match_len : List Nat → List Nat → Nat
  | a :: la, b :: lb =>
    if a == b then longest_token_match_len la lb + 1 else 0
  | _, _ => 0

/-- `_load_cache` (`llama_cpp.py` lines 259-279).  The external lookup
`cache[ids]` is passed in as `lookup` (`.error .keyError` for a miss,
`.error .otherError` for any other exception raised while reading the
entry).  The body computes `cache_prefix_len` and `eval_prefix_len` and
loads the cached state exactly when the former is strictly greater; the
surrounding `try` has a single handler, `except KeyError: pass`, so every
other error propagates. -/
def _load_cache (lookup : Except CacheErr CacheItem) (ids : List Nat)
    (client : LlamaClient) : Except CacheErr LlamaClient :=
  match lookup with
  | .error .keyError => .ok client
  | .error e => .error e
  | .ok cache_item =>
    let cache_prefix_len := longest_token_match_len cache_item.input_ids ids
    let eval_prefix_len := longest_token_match_len client.input_ids ids
    if cache_prefix_len > eval_prefix_len then
      .ok (load_state client cache_item)
    else .ok client

/-- The outcome of one whole `_generate_text` call: the final loop state
and, when a cache is attached and the post-loop write-back ran, the key
it stored the backend state under. -/
structure GenOutcome where
  final : GenState
  cache_store_key : Option (List Nat)
deriving DecidableEq, Repr

/-- `_generate_text` after the cache-warm step (`llama_cpp.py` lines
194-256): the early interruption check (`if self.check_interruption(...):
return`, which skips both the loop and the write-back), then the loop,
then, if a cache is attached, the write-back
`client.cache[input_ids + generated_ids] = client.save_state()`. -/
def generate_text_run (cacheAttached interruptedBeforeLoop : Bool)
    (stops : List (List Nat)) (detok : Nat → List Nat) (eos : Nat)
    (input : List (Bool × Nat)) (max_tokens : Nat) (input_ids : List Nat) :
    GenOutcome :=
  if interruptedBeforeLoop then ⟨initGenState, none⟩
  else
    let final := genRun stops detok eos input max_tokens initGenState
    ⟨final,
      if cacheAttached then some (input_ids ++ final.generated_ids)
      else none⟩

/-! ## Model registry listing (`pools/llama.py`, `v1.py`) -/

/-- One attribute of the `model_definitions` module: its name, whether the
value is a `BaseLLMModel` descriptor, and the descriptor's `model_path`. -/
structure ModelEntry where
  name : String
  is_llm : Bool
  model_path : String
deriving DecidableEq, Repr

/-- `get_model_names` (`pools/llama.py` lines 89-94): for every module
attribute that is a `BaseLLMModel`, the string
`k + f"({v.model_path})"`. -/
def get_model_names (registry : List ModelEntry) : List String :=
  (registry.filter (fun e => e.is_llm)).map
    (fun e => e.name ++ "(" ++ e.model_path ++ ")")

/-- The `id` fields of the `ModelData` objects built by the `get_models`
route (`v1.py` lines 297-318): one per string returned by
`get_model_names`, with `id=model_name`. -/
def get_models_ids (registry : List ModelEntry) : List String :=
  (get_model_names registry).map (fun model_name => model_name)

/-! ## Helper lemmas -/

theorem int_min?_eq_some_iff (xs : List Int) (a : Int) :
    xs.min? = some a ↔ a ∈ xs ∧ ∀ b ∈ xs, a ≤ b := by
  haveI anti : Std.Antisymm (fun x1 x2 : Int => x1 ≤ x2) :=
    ⟨fun {x y} h h2 => le_antisymm h h2⟩
  apply List.min?_eq_some_iff <;> intros <;> simp [min_def] <;> omega

theorem mem_select_candidates (ranks : List Int) (m : Int) (i : Nat) :
    i ∈ select_candidates ranks m ↔ i < ranks.length ∧ ranks.getD i 0 = m := by
  simp [select_candidates, List.mem_filter, List.mem_range]

theorem worker_ranks_length (S : Nat) (metas : List WixMetadata)
    (key : Option String) : (worker_ranks S metas key).length = metas.length := by
  simp [worker_ranks]

theorem getD_mem_of_lt {xs : List Int} {j : Nat} (h : j < xs.length) :
    xs.getD j 0 ∈ xs := by
  rw [List.getD_eq_getElem xs 0 h]
  exact List.getElem_mem h

/-- If `select_worker` returns `.ok i`, then `i` indexes a worker and its
rank is a lower bound of all worker ranks. -/
theorem select_worker_ok_spec (S : Nat) (metas : List WixMetadata)
    (key : Option String) (pick i : Nat)
    (h : select_worker S metas key pick = .ok i) :
    i < metas.length ∧
      ∀ j, j < metas.length →
        (worker_ranks S metas key).getD i 0 ≤
          (worker_ranks S metas key).getD j 0 := by
  rw [select_worker] at h
  rcases hmin : (worker_ranks S metas key).min? with _ | m
  · rw [hmin] at h; exact absurd h (by simp)
  · rw [hmin] at h; dsimp only at h
    rcases hc : select_candidates (worker_ranks S metas key) m with _ | ⟨c, cs⟩
    · rw [hc] at h; exact absurd h (by simp)
    · rw [hc] at h; dsimp only at h
      have hlen : pick % (c :: cs).length < (c :: cs).length :=
        Nat.mod_lt _ (by simp)
      have hmem : (c :: cs).getD (pick % (c :: cs).length) c ∈ c :: cs := by
        rw [List.getD_eq_getElem _ _ hlen]
        exact List.getElem_mem hlen
      have hi : i ∈ c :: cs := by
        have := h
        simp only [Except.ok.injEq] at this
        rw [← this]; exact hmem
      rw [← hc] at hi
      rw [mem_select_candidates] at hi
      obtain ⟨hilt, hieq⟩ := hi
      rw [worker_ranks_length] at hilt
      refine ⟨hilt, fun j hj => ?_⟩
      have hmle := (int_min?_eq_some_iff _ m).mp hmin
      have hjm : (worker_ranks S metas key).getD j 0 ∈ worker_ranks S metas key :=
        getD_mem_of_lt (by rwa [worker_ranks_length])
      rw [hieq]
      exact hmle.2 _ hjm

/-- If the worker list is nonempty, some candidate exists, and selection
succeeds. -/
theorem select_worker_ok_of_ne_nil (S : Nat) (metas : List WixMetadata)
    (key : Option String) (pick : Nat) (h : metas ≠ []) :
    ∃ i, select_worker S metas key pick = .ok i := by
  rw [select_worker]
  rcases hmin : (worker_ranks S metas key).min? with _ | m
  · rw [List.min?_eq_none_iff] at hmin
    exact absurd (by simpa [worker_ranks] using hmin) h
  · dsimp only
    have hm := (int_min?_eq_some_iff _ m).mp hmin
    obtain ⟨idx, hidx, heq⟩ := List.mem_iff_getElem.mp hm.1
    have hcand : idx ∈ select_candidates (worker_ranks S metas key) m := by
      rw [mem_select_candidates]
      exact ⟨hidx, by rw [List.getD_eq_getElem _ _ hidx]; exact heq⟩
    rcases hc : select_candidates (worker_ranks S metas key) m with _ | ⟨c, cs⟩
    · rw [hc] at hcand; exact absurd hcand (by simp)
    · exact ⟨_, rfl⟩

/-! ## Generation-loop lemmas -/

theorem stop_checker_none_no_stop {stops : List (List Nat)} {t : List Nat}
    (h : stop_checker stops t = none) :
    ∀ stp ∈ stops, containsSub t stp = false := by
  intro stp hstp
  by_contra hc
  have hany : stops.any (fun s => containsSub t s) = true :=
    List.any_eq_true.mpr ⟨stp, hstp, by simpa using hc⟩
  simp [stop_checker, hany] at h

theorem genStep_finished {stops detok eos s x} (h : s.finished = true) :
    genStep stops detok eos s x = s := by
  simp [genStep, h]

theorem genStep_break {stops detok eos s x} (h : s.finished = false)
    (h2 : x.1 = true ∨ (x.2 == eos) = true) :
    genStep stops detok eos s x = { s with finished := true } := by
  rcases h2 with h2 | h2 <;> simp [genStep, h, h2]

theorem genStep_decode_fail {stops detok eos s tok}
    (h : s.finished = false) (he : (tok == eos) = false)
    (hd : utf8Decode (s.byte_array ++ detok tok) = none) :
    genStep stops detok eos s (false, tok) =
      { s with
        generated_ids := s.generated_ids ++ [tok]
        generated_tokens := s.generated_tokens + 1
        byte_array := s.byte_array ++ detok tok } := by
  simp [genStep, h, he, hd]

theorem genStep_decoded_clear {stops detok eos s tok d}
    (h : s.finished = false) (he : (tok == eos) = false)
    (hd : utf8Decode (s.byte_array ++ detok tok) = some d)
    (hs : stop_checker stops (s.text_buffer ++ d) = none) :
    genStep stops detok eos s (false, tok) =
      { s with
        generated_ids := s.generated_ids ++ [tok]
        generated_tokens := s.generated_tokens + 1
        byte_array := []
        text_buffer := []
        generated_text := s.generated_text ++ (s.text_buffer ++ d)
        yields := s.yields ++ [s.text_buffer ++ d] } := by
  simp [genStep, h, he, hd, hs]

theorem genStep_decoded_matched {stops detok eos s tok d}
    (h : s.finished = false) (he : (tok == eos) = false)
    (hd : utf8Decode (s.byte_array ++ detok tok) = some d)
    (hs : stop_checker stops (s.text_buffer ++ d) = some true) :
    genStep stops detok eos s (false, tok) =
      { s with
        generated_ids := s.generated_ids ++ [tok]
        generated_tokens := s.generated_tokens + 1
        byte_array := []
        finished := true } := by
  simp [genStep, h, he, hd, hs]

theorem genStep_decoded_withheld {stops detok eos s tok d}
    (h : s.finished = false) (he : (tok == eos) = false)
    (hd : utf8Decode (s.byte_array ++ detok tok) = some d)
    (hs : stop_checker stops (s.text_buffer ++ d) = some false) :
    genStep stops detok eos s (false, tok) =
      { s with
        generated_ids := s.generated_ids ++ [tok]
        generated_tokens := s.generated_tokens + 1
        byte_array := []
        text_buffer := s.text_buffer ++ d } := by
  simp [genStep, h, he, hd, hs]

/-- Every step either leaves the yield list unchanged or appends exactly
one chunk that the stop checker reported clear. -/
theorem genStep_yields_cases (stops : List (List Nat))
    (detok : Nat → List Nat) (eos : Nat) (s : GenState) (x : Bool × Nat) :
    (genStep stops detok eos s x).yields = s.yields ∨
    ∃ t, (genStep stops detok eos s x).yields = s.yields ++ [t] ∧
      stop_checker stops t = none := by
  rcases hf : s.finished with _ | _
  · rcases hb : (x.1 || x.2 == eos) with _ | _
    · rcases hx : x with ⟨i, tok⟩
      rw [hx] at hb
      simp only [Bool.or_eq_false_iff] at hb
      obtain ⟨hi, he⟩ := hb
      subst hi
      rcases hd : utf8Decode (s.byte_array ++ detok tok) with _ | d
      · left
        rw [genStep_decode_fail hf he hd]
      · rcases hs : stop_checker stops (s.text_buffer ++ d) with _ | b
        · right
          exact ⟨s.text_buffer ++ d,
            by rw [genStep_decoded_clear hf he hd hs], hs⟩
        · rcases b with _ | _
          · left; rw [genStep_decoded_withheld hf he hd hs]
          · left; rw [genStep_decoded_matched hf he hd hs]
    · left
      rw [genStep_break hf (by simpa using hb)]
  · left; rw [genStep_finished hf]

/-- Invariants preserved by every step are preserved by the whole loop. -/
theorem foldl_genStep_invariant (stops : List (List Nat))
    (detok : Nat → List Nat) (eos : Nat) (P : GenState → Prop)
    (hstep : ∀ s x, P s → P (genStep stops detok eos s x)) :
    ∀ (l : List (Bool × Nat)) (init : GenState), P init →
      P (l.foldl (genStep stops detok eos) init) := by
  intro l
  induction l with
  | nil => intro init h; simpa using h
  | cons a t ih => intro init h; simpa using ih _ (hstep _ _ h)

/-- Master case analysis: every step is an absorption, a break, an
undecodable-bytes step, or one of the three stop-checker outcomes, each
with its exact state update. -/
theorem genStep_shape (stops : List (List Nat)) (detok : Nat → List Nat)
    (eos : Nat) (s : GenState) (x : Bool × Nat) :
    genStep stops detok eos s x = s ∨
    genStep stops detok eos s x = { s with finished := true } ∨
    (∃ tok, x = (false, tok) ∧
      (genStep stops detok eos s x =
        { s with
          generated_ids := s.generated_ids ++ [tok]
          generated_tokens := s.generated_tokens + 1
          byte_array := s.byte_array ++ detok tok } ∨
      ∃ d,
        genStep stops detok eos s x =
          { s with
            generated_ids := s.generated_ids ++ [tok]
            generated_tokens := s.generated_tokens + 1
            byte_array := []
            text_buffer := []
            generated_text := s.generated_text ++ (s.text_buffer ++ d)
            yields := s.yields ++ [s.text_buffer ++ d] } ∨
        genStep stops detok eos s x =
          { s with
            generated_ids := s.generated_ids ++ [tok]
            generated_tokens := s.generated_tokens + 1
            byte_array := []
            finished := true } ∨
        genStep stops detok eos s x =
          { s with
            generated_ids := s.generated_ids ++ [tok]
            generated_tokens := s.generated_tokens + 1
            byte_array := []
            text_buffer := s.text_buffer ++ d })) := by
  rcases hf : s.finished with _ | _
  · rcases hb : (x.1 || x.2 == eos) with _ | _
    · rcases hx : x with ⟨i, tok⟩
      rw [hx] at hb
      simp only [Bool.or_eq_false_iff] at hb
      obtain ⟨hi, he⟩ := hb
      subst hi
      refine Or.inr (Or.inr ⟨tok, rfl, ?_⟩)
      rcases hd : utf8Decode (s.byte_array ++ detok tok) with _ | d
      · refine Or.inl ?_
        rw [genStep_decode_fail hf he hd, hf]
      · refine Or.inr ⟨d, ?_⟩
        rcases hs : stop_checker stops (s.text_buffer ++ d) with _ | b
        · refine Or.inl ?_
          rw [genStep_decoded_clear hf he hd hs, hf]
        · rcases b with _ | _
          · refine Or.inr (Or.inr ?_)
            rw [genStep_decoded_withheld hf he hd hs, hf]
          · exact Or.inr (Or.inl (genStep_decoded_matched hf he hd hs))
    · exact Or.inr (Or.inl (genStep_break hf (by simpa using hb)))
  · exact Or.inl (genStep_finished hf)

/-! ## Longest-common-prefix lemmas for the cache -/

theorem longest_token_match_le_left :
    ∀ a b : List Nat, longest_token_match_len a b ≤ a.length := by
  intro a
  induction a with
  | nil => intro b; simp [longest_token_match_len]
  | cons x la ih =>
    intro b
    rcases b with _ | ⟨y, lb⟩
    · simp [longest_token_match_len]
    · by_cases hxy : (x == y) = true <;>
        simp [longest_token_match_len, hxy]
      exact ih lb

theorem longest_token_match_le_right :
    ∀ a b : List Nat, longest_token_match_len a b ≤ b.length := by
  intro a
  induction a with
  | nil => intro b; simp [longest_token_match_len]
  | cons x la ih =>
    intro b
    rcases b with _ | ⟨y, lb⟩
    · simp [longest_token_match_len]
    · by_cases hxy : (x == y) = true <;>
        simp [longest_token_match_len, hxy]
      exact ih lb

theorem longest_token_match_take :
    ∀ a b : List Nat,
      a.take (longest_token_match_len a b) =
        b.take (longest_token_match_len a b) := by
  intro a
  induction a with
  | nil => intro b; simp [longest_token_match_len]
  | cons x la ih =>
    intro b
    rcases b with _ | ⟨y, lb⟩
    · simp [longest_token_match_len]
    · by_cases hxy : (x == y) = true
      · have hxy2 : x = y := by simpa using hxy
        simp [longest_token_match_len, hxy, hxy2, ih lb]
      · simp [longest_token_match_len, hxy]

theorem longest_token_match_maximal :
    ∀ (a b : List Nat) (k : Nat), k ≤ a.length → k ≤ b.length →
      a.take k = b.take k → k ≤ longest_token_match_len a b := by
  intro a
  induction a with
  | nil =>
    intro b k hk _ _
    have hz : longest_token_match_len [] b = 0 := by cases b <;> rfl
    simp only [List.length_nil] at hk
    omega
  | cons x la ih =>
    intro b k hka hkb htake
    rcases b with _ | ⟨y, lb⟩
    · have hz : longest_token_match_len (x :: la) [] = 0 := rfl
      simp only [List.length_nil] at hkb
      omega
    · rcases k with _ | k
      · simp
      · simp only [List.take_succ_cons, List.cons.injEq] at htake
        have hxy : (x == y) = true := by simp [htake.1]
        have := ih lb k (by simpa using hka) (by simpa using hkb) htake.2
        simp only [longest_token_match_len, hxy, if_true]
        omega

/-! ## Claim theorems -/

/-- C1: the semaphore is NOT released on every exit path.  On the path
where the client is found disconnected immediately after acquisition
(`v1.py` line 119), `get_wix_with_semaphore` raises the cancellation
exception without releasing the just-acquired permit, and the caller's
`finally` block skips the release because `wix` was never assigned: the
trace holds one acquire and zero releases.  On the paths where
`get_wix_with_semaphore` returns, the permit is released exactly once
whether the body succeeds or raises. -/
theorem c1_semaphore_leak_on_disconnect_after_acquire :
    ((create_chat_completion_or_completion 0 true BodyOutcome.success).1 =
        ReqResult.cancelled ∧
      (create_chat_completion_or_completion 0 true
          BodyOutcome.success).2.count (SemOp.acquire 0) = 1 ∧
      (create_chat_completion_or_completion 0 true
          BodyOutcome.success).2.count (SemOp.release 0) = 0) ∧
    ((create_chat_completion_or_completion 0 false
          BodyOutcome.success).2.count (SemOp.acquire 0) = 1 ∧
      (create_chat_completion_or_completion 0 false
          BodyOutcome.success).2.count (SemOp.release 0) = 1) ∧
    ((create_chat_completion_or_completion 0 false
          BodyOutcome.raises).2.count (SemOp.acquire 0) = 1 ∧
      (create_chat_completion_or_completion 0 false
          BodyOutcome.raises).2.count (SemOp.release 0) = 1) := by
  decide

/-- C2: the rank is −2 when the worker's current affinity equals the
request key (taking precedence), −1 when the key or the affinity is null
(and they differ), and otherwise `max_semaphores` minus the semaphore
availability; a successful selection returns an index whose rank is a
minimum over all workers; and the candidate pool handed to the random
choice is exactly the set of indices tied at the minimum rank. -/
theorem c2_worker_rank_and_min_selection :
    (∀ (S : Nat) (meta : WixMetadata) (key : Option String),
      (key = meta.processed_key → get_worker_rank S meta key = -2) ∧
      (key ≠ meta.processed_key → (key = none ∨ meta.processed_key = none) →
        get_worker_rank S meta key = -1) ∧
      (key ≠ meta.processed_key → key ≠ none → meta.processed_key ≠ none →
        get_worker_rank S meta key =
          (S : Int) - (meta.semaphore_value : Int))) ∧
    (∀ (S : Nat) (metas : List WixMetadata) (key : Option String)
        (pick i : Nat), select_worker S metas key pick = .ok i →
      i < metas.length ∧
      ∀ j, j < metas.length →
        (worker_ranks S metas key).getD i 0 ≤
          (worker_ranks S metas key).getD j 0) ∧
    (∀ (S : Nat) (metas : List WixMetadata) (key : Option String) (m : Int)
        (i : Nat), (worker_ranks S metas key).min? = some m →
      (i ∈ select_candidates (worker_ranks S metas key) m ↔
        i < metas.length ∧ (worker_ranks S metas key).getD i 0 = m)) := by
  refine ⟨?_, ?_, ?_⟩
  · intro S meta key
    refine ⟨fun hk => ?_, fun hk hnull => ?_, fun hk hkn hpn => ?_⟩
    · simp [get_worker_rank, hk]
    · have hbeq : (key == meta.processed_key) = false := by
        simpa using hk
      have hiso : (key.isNone || meta.processed_key.isNone) = true := by
        rcases hnull with hn | hn <;> simp [hn]
      simp [get_worker_rank, hbeq, hiso]
    · have hbeq : (key == meta.processed_key) = false := by
        simpa using hk
      have h1 : key.isNone = false := by
        rcases key with _ | v
        · exact absurd rfl hkn
        · rfl
      have h2 : meta.processed_key.isNone = false := by
        rcases hpk : meta.processed_key with _ | v
        · exact absurd hpk hpn
        · rfl
      simp [get_worker_rank, hbeq, h1, h2]
  · intro S metas key pick i h
    exact select_worker_ok_spec S metas key pick i h
  · intro S metas key m i _
    rw [mem_select_candidates, worker_ranks_length]

/-- Witness for C2 at concrete inputs: a worker already processing the
requested model gets rank −2, and with two workers on other models the
selection picks the worker with the free semaphore slot (minimum rank). -/
theorem c2_worker_rank_and_min_selection_witness :
    get_worker_rank 1 ⟨0, some "a", 1⟩ (some "a") = -2 ∧
    (1 < 2 ∧ ∀ j, j < 2 →
      (worker_ranks 1 [⟨0, some "a", 0⟩, ⟨1, some "b", 1⟩]
          (some "c")).getD 1 0 ≤
        (worker_ranks 1 [⟨0, some "a", 0⟩, ⟨1, some "b", 1⟩]
            (some "c")).getD j 0) :=
  ⟨(c2_worker_rank_and_min_selection.1 1 ⟨0, some "a", 1⟩ (some "a")).1 rfl,
    by
      have h2 := c2_worker_rank_and_min_selection.2.1 1
        [⟨0, some "a", 0⟩, ⟨1, some "b", 1⟩] (some "c") 5 1 rfl
      simpa using h2⟩

/-- C8 counterexample: with W = 0 workers the rank list and hence the
candidate set are empty, yet the code fails with Python's
`min() arg is an empty sequence` `ValueError` (raised at `v1.py` line 108,
before the candidate check), not with the no-available-worker
`LookupError`. -/
theorem c8_empty_pool_fails_with_min_error :
    worker_ranks 1 [] (some "a") = [] ∧
    select_candidates (worker_ranks 1 [] (some "a")) 0 = [] ∧
    select_worker 1 [] (some "a") 0 = .error .emptyMin ∧
    select_worker 1 [] (some "a") 0 ≠ .error .noAvailableWorker := by
  refine ⟨rfl, rfl, rfl, ?_⟩
  intro h
  simp [select_worker, worker_ranks, select_candidates] at h

/-- C8 amended: the no-available-worker `LookupError` is unreachable.  For
every W ≥ 1 the minimum rank is attained, so the candidate set is nonempty
and selection succeeds with a valid index; for W = 0 selection fails, but
with the empty-sequence error from `min`, which is raised before the
candidate check. -/
theorem c8_no_available_worker_unreachable :
    (∀ (S : Nat) (metas : List WixMetadata) (key : Option String)
        (pick : Nat),
      select_worker S metas key pick ≠ .error .noAvailableWorker) ∧
    (∀ (S : Nat) (metas : List WixMetadata) (key : Option String)
        (pick : Nat), metas ≠ [] →
      ∃ i, select_worker S metas key pick = .ok i ∧ i < metas.length) ∧
    (∀ (S : Nat) (key : Option String) (pick : Nat),
      select_worker S [] key pick = .error .emptyMin) := by
  refine ⟨?_, ?_, ?_⟩
  · intro S metas key pick h
    by_cases hemp : metas = []
    · subst hemp
      simp [select_worker, worker_ranks] at h
    · obtain ⟨i, hi⟩ := select_worker_ok_of_ne_nil S metas key pick hemp
      rw [hi] at h
      exact absurd h (by simp)
  · intro S metas key pick h
    obtain ⟨i, hi⟩ := select_worker_ok_of_ne_nil S metas key pick h
    exact ⟨i, hi, (select_worker_ok_spec S metas key pick i hi).1⟩
  · intro S key pick
    simp [select_worker, worker_ranks]

/-- Witness for C8 amended: with one idle worker, selection succeeds and
returns index 0. -/
theorem c8_no_available_worker_unreachable_witness :
    ∃ i, select_worker 1 [⟨0, none, 1⟩] (some "a") 0 = .ok i ∧ i < 1 := by
  have h := c8_no_available_worker_unreachable.2.1 1 [⟨0, none, 1⟩]
    (some "a") 0 (by decide)
  simpa using h

/-- C9 counterexample: for a registry holding the single descriptor
`orca_mini_3b` with `model_path="orca-mini-3b.ggmlv3.q4_1.bin"`, the
listing returns the registered name with the model path appended in
parentheses, not the bare registered name that the claim requires. -/
theorem c9_model_listing_counterexample :
    get_model_names
        [⟨"orca_mini_3b", true, "orca-mini-3b.ggmlv3.q4_1.bin"⟩] =
      ["orca_mini_3b(orca-mini-3b.ggmlv3.q4_1.bin)"] ∧
    get_model_names
        [⟨"orca_mini_3b", true, "orca-mini-3b.ggmlv3.q4_1.bin"⟩] ≠
      ["orca_mini_3b"] := by
  refine ⟨rfl, ?_⟩
  intro h
  simp [get_model_names] at h

/-- C9 amended: the model-listing operation returns one entry per registry
attribute that is a model descriptor, whose id string is the registered
name followed by the descriptor's model path in parentheses; the route's
`ModelData.id` fields are exactly the strings from `get_model_names`. -/
theorem c9_model_listing_amended :
    ∀ (registry : List ModelEntry) (s : String),
      (s ∈ get_models_ids registry ↔
        ∃ e ∈ registry, e.is_llm = true ∧
          s = e.name ++ "(" ++ e.model_path ++ ")") ∧
      get_models_ids registry = get_model_names registry ∧
      (get_model_names registry).length =
        (registry.filter (fun e => e.is_llm)).length := by
  intro registry s
  refine ⟨?_, ?_, ?_⟩
  · constructor
    · intro h
      simp only [get_models_ids, get_model_names, List.mem_map,
        List.mem_filter] at h
      obtain ⟨a, ⟨e, ⟨he, hllm⟩, hfe⟩, has⟩ := h
      exact ⟨e, he, hllm, by rw [← has, ← hfe]⟩
    · rintro ⟨e, he, hllm, heq⟩
      simp only [get_models_ids, get_model_names, List.mem_map,
        List.mem_filter]
      exact ⟨_, ⟨e, ⟨he, hllm⟩, rfl⟩, heq.symm⟩
  · simp [get_models_ids]
  · simp [get_model_names]

/-- Witness for C9 amended at the single-descriptor registry. -/
theorem c9_model_listing_amended_witness :
    ("orca_mini_3b(orca-mini-3b.ggmlv3.q4_1.bin)" ∈
        get_models_ids
          [⟨"orca_mini_3b", true, "orca-mini-3b.ggmlv3.q4_1.bin"⟩] ↔
      ∃ e ∈ [(⟨"orca_mini_3b", true,
          "orca-mini-3b.ggmlv3.q4_1.bin"⟩ : ModelEntry)], e.is_llm = true ∧
        "orca_mini_3b(orca-mini-3b.ggmlv3.q4_1.bin)" =
          e.name ++ "(" ++ e.model_path ++ ")") ∧
    get_models_ids [⟨"orca_mini_3b", true,
        "orca-mini-3b.ggmlv3.q4_1.bin"⟩] =
      get_model_names [⟨"orca_mini_3b", true,
        "orca-mini-3b.ggmlv3.q4_1.bin"⟩] ∧
    (get_model_names [⟨"orca_mini_3b", true,
        "orca-mini-3b.ggmlv3.q4_1.bin"⟩]).length =
      ([(⟨"orca_mini_3b", true,
          "orca-mini-3b.ggmlv3.q4_1.bin"⟩ : ModelEntry)].filter
        (fun e => e.is_llm)).length :=
  c9_model_listing_amended
    [⟨"orca_mini_3b", true, "orca-mini-3b.ggmlv3.q4_1.bin"⟩]
    "orca_mini_3b(orca-mini-3b.ggmlv3.q4_1.bin)"

/-- C7 counterexample: an error other than a missing key raised during the
cache lookup phase propagates out of `_load_cache` instead of being
caught — the handler at `llama_cpp.py` line 277 is `except KeyError`
only. -/
theorem c7_cache_error_propagates_counterexample :
    _load_cache (.error .otherError) [1, 2] ⟨[], []⟩ =
      .error .otherError := rfl

/-- C7 amended: during the cache lookup phase only the missing-key error
(`KeyError`) is caught, in which case generation proceeds with the client
unchanged; every other lookup error propagates out of the loading step. -/
theorem c7_only_key_error_caught :
    (∀ (ids : List Nat) (client : LlamaClient),
      _load_cache (.error .keyError) ids client = .ok client) ∧
    (∀ (ids : List Nat) (client : LlamaClient) (e : CacheErr),
      e ≠ CacheErr.keyError →
        _load_cache (.error e) ids client = .error e) := by
  constructor
  · intro ids client; rfl
  · intro ids client e he
    cases e
    · exact absurd rfl he
    · rfl

/-- Witness for C7 amended: a miss is swallowed, a deserialization-style
error propagates, at concrete inputs. -/
theorem c7_only_key_error_caught_witness :
    _load_cache (.error .keyError) [1] ⟨[1], []⟩ = .ok ⟨[1], []⟩ ∧
    _load_cache (.error .otherError) [1] ⟨[1], []⟩ =
      .error .otherError :=
  ⟨c7_only_key_error_caught.1 [1] ⟨[1], []⟩,
    c7_only_key_error_caught.2 [1] ⟨[1], []⟩ .otherError (by decide)⟩

/-- C3: no chunk yielded by the generation loop contains any configured
stop string as a substring; and at each decoded step, a full stop match
breaks the loop without yielding, a proper-prefix suffix match withholds
the text in the buffer and yields nothing, and otherwise the buffered
text plus the new chunk is yielded and the buffer cleared.  The checker
itself is modelled from the spec (see `stop_checker`); the dispatching on
its result is the code's (`llama_cpp.py` lines 237-246). -/
theorem c3_no_yielded_chunk_contains_stop :
    (∀ (stops : List (List Nat)) (detok : Nat → List Nat) (eos : Nat)
        (input : List (Bool × Nat)) (max_tokens : Nat),
      ∀ c ∈ (genRun stops detok eos input max_tokens initGenState).yields,
        ∀ stp ∈ stops, containsSub c stp = false) ∧
    (∀ (stops : List (List Nat)) (detok : Nat → List Nat) (eos : Nat)
        (s : GenState) (tok : Nat) (d : List Nat), s.finished = false →
      (tok == eos) = false →
      utf8Decode (s.byte_array ++ detok tok) = some d →
      ((stop_checker stops (s.text_buffer ++ d) = some true →
        (genStep stops detok eos s (false, tok)).finished = true ∧
        (genStep stops detok eos s (false, tok)).yields = s.yields) ∧
      (stop_checker stops (s.text_buffer ++ d) = some false →
        (genStep stops detok eos s (false, tok)).yields = s.yields ∧
        (genStep stops detok eos s (false, tok)).text_buffer =
          s.text_buffer ++ d) ∧
      (stop_checker stops (s.text_buffer ++ d) = none →
        (genStep stops detok eos s (false, tok)).yields =
          s.yields ++ [s.text_buffer ++ d] ∧
        (genStep stops detok eos s (false, tok)).text_buffer = []))) := by
  constructor
  · intro stops detok eos input max_tokens
    have hstep : ∀ (s : GenState) (x : Bool × Nat),
        (∀ c ∈ s.yields, ∀ stp ∈ stops, containsSub c stp = false) →
        (∀ c ∈ (genStep stops detok eos s x).yields,
          ∀ stp ∈ stops, containsSub c stp = false) := by
      intro s x hs c hc stp hstp
      rcases genStep_yields_cases stops detok eos s x with
        hcase | ⟨t, ht, hnone⟩
      · rw [hcase] at hc; exact hs c hc stp hstp
      · rw [ht] at hc
        rcases List.mem_append.mp hc with hc2 | hc2
        · exact hs c hc2 stp hstp
        · have hct : c = t := by simpa using hc2
          subst hct
          exact stop_checker_none_no_stop hnone stp hstp
    have := foldl_genStep_invariant stops detok eos
      (fun st => ∀ c ∈ st.yields, ∀ stp ∈ stops, containsSub c stp = false)
      hstep (input.take max_tokens) initGenState (by simp [initGenState])
    simpa [genRun] using this
  · intro stops detok eos s tok d hf he hd
    refine ⟨fun hs => ?_, fun hs => ?_, fun hs => ?_⟩
    · rw [genStep_decoded_matched hf he hd hs]; exact ⟨rfl, rfl⟩
    · rw [genStep_decoded_withheld hf he hd hs]; exact ⟨rfl, rfl⟩
    · rw [genStep_decoded_clear hf he hd hs]; exact ⟨rfl, rfl⟩

/-- Witness for C3: a run yielding the chunk "h" against stop string "#",
and the spec's scenario 4 — with stop "###" and buffered "##", the chunk
"#end" is a full stop match: the step finishes and yields nothing. -/
theorem c3_no_yielded_chunk_contains_stop_witness :
    containsSub [104] [35] = false ∧
    ((genStep [[35, 35, 35]]
        (fun t => if t == 2 then [35, 101, 110, 100] else [97]) 99
        ⟨[1], 1, [], [35, 35], [], [], false⟩ (false, 2)).finished = true ∧
      (genStep [[35, 35, 35]]
        (fun t => if t == 2 then [35, 101, 110, 100] else [97]) 99
        ⟨[1], 1, [], [35, 35], [], [], false⟩ (false, 2)).yields =
        (⟨[1], 1, [], [35, 35], [], [], false⟩ : GenState).yields) :=
  ⟨c3_no_yielded_chunk_contains_stop.1 [[35]] (fun _ => [104]) 99
      [(false, 1)] 1 [104] (by decide) [35] (by decide),
    (c3_no_yielded_chunk_contains_stop.2 [[35, 35, 35]]
        (fun t => if t == 2 then [35, 101, 110, 100] else [97]) 99
        ⟨[1], 1, [], [35, 35], [], [], false⟩ 2 [35, 101, 110, 100]
        rfl rfl rfl).1 rfl⟩

/-- C4: when UTF-8 decoding of the accumulated bytes fails, the bytes are
kept in the rolling buffer and the step yields no text (buffers and
accumulators untouched); when decoding succeeds the byte buffer is
cleared; concretely, a two-byte character `é` (0xC3 0xA9) split across
two tokens yields nothing at the first token and the full decoded
character U+00E9 at the second. -/
theorem c4_utf8_resynchronization :
    (∀ (stops : List (List Nat)) (detok : Nat → List Nat) (eos : Nat)
        (s : GenState) (tok : Nat), s.finished = false →
      (tok == eos) = false →
      utf8Decode (s.byte_array ++ detok tok) = none →
      (genStep stops detok eos s (false, tok)).byte_array =
        s.byte_array ++ detok tok ∧
      (genStep stops detok eos s (false, tok)).yields = s.yields ∧
      (genStep stops detok eos s (false, tok)).generated_text =
        s.generated_text ∧
      (genStep stops detok eos s (false, tok)).text_buffer =
        s.text_buffer) ∧
    (∀ (stops : List (List Nat)) (detok : Nat → List Nat) (eos : Nat)
        (s : GenState) (tok : Nat) (d : List Nat), s.finished = false →
      (tok == eos) = false →
      utf8Decode (s.byte_array ++ detok tok) = some d →
      (genStep stops detok eos s (false, tok)).byte_array = []) ∧
    (utf8Decode [0xC3] = none ∧
      utf8Decode [0xC3, 0xA9] = some [0xE9] ∧
      (genRun [] (fun t => if t == 1 then [0xC3] else if t == 2 then [0xA9]
          else []) 99 [(false, 1)] 16 initGenState).yields = [] ∧
      (genRun [] (fun t => if t == 1 then [0xC3] else if t == 2 then [0xA9]
          else []) 99 [(false, 1)] 16 initGenState).byte_array = [0xC3] ∧
      (genRun [] (fun t => if t == 1 then [0xC3] else if t == 2 then [0xA9]
          else []) 99 [(false, 1), (false, 2)] 16 initGenState).yields =
        [[0xE9]]) := by
  refine ⟨?_, ?_, ?_⟩
  · intro stops detok eos s tok hf he hd
    rw [genStep_decode_fail hf he hd]
    exact ⟨rfl, rfl, rfl, rfl⟩
  · intro stops detok eos s tok d hf he hd
    rcases hs : stop_checker stops (s.text_buffer ++ d) with _ | b
    · rw [genStep_decoded_clear hf he hd hs]
    · rcases b with _ | _
      · rw [genStep_decoded_withheld hf he hd hs]
      · rw [genStep_decoded_matched hf he hd hs]
  · exact ⟨rfl, rfl, rfl, rfl, rfl⟩

/-- Witness for C4: at the first token of the split character the bytes
are kept and nothing is yielded; at a decodable step the byte buffer is
cleared. -/
theorem c4_utf8_resynchronization_witness :
    ((genStep [] (fun _ => [0xC3]) 99 initGenState (false, 1)).byte_array =
        initGenState.byte_array ++ [0xC3] ∧
      (genStep [] (fun _ => [0xC3]) 99 initGenState (false, 1)).yields =
        initGenState.yields ∧
      (genStep [] (fun _ => [0xC3]) 99 initGenState
          (false, 1)).generated_text = initGenState.generated_text ∧
      (genStep [] (fun _ => [0xC3]) 99 initGenState (false, 1)).text_buffer =
        initGenState.text_buffer) ∧
    (genStep [] (fun _ => [0xA9]) 99 ⟨[1], 1, [0xC3], [], [], [], false⟩
        (false, 2)).byte_array = [] :=
  ⟨c4_utf8_resynchronization.1 [] (fun _ => [0xC3]) 99 initGenState 1
      rfl rfl rfl,
    c4_utf8_resynchronization.2.1 [] (fun _ => [0xA9]) 99
      ⟨[1], 1, [0xC3], [], [], [], false⟩ 2 [0xE9] rfl rfl rfl⟩

/-- C6: the concatenation, in yield order, of all chunks yielded by the
generation loop equals the final `generated_text` of the completion
status; text still withheld in the stop-string buffer at loop end is in
neither. -/
theorem c6_yields_concat_eq_generated_text :
    ∀ (stops : List (List Nat)) (detok : Nat → List Nat) (eos : Nat)
      (input : List (Bool × Nat)) (max_tokens : Nat),
      (genRun stops detok eos input max_tokens initGenState).generated_text =
        ((genRun stops detok eos input max_tokens initGenState).yields).flatten := by
  intro stops detok eos input max_tokens
  have hstep : ∀ (s : GenState) (x : Bool × Nat),
      s.generated_text = s.yields.flatten →
      (genStep stops detok eos s x).generated_text =
        (genStep stops detok eos s x).yields.flatten := by
    intro s x hs
    rcases genStep_shape stops detok eos s x with
      hc | hc | ⟨tok, _, hc | ⟨d, hc | hc | hc⟩⟩ <;>
      rw [hc] <;> simp [hs]
  have := foldl_genStep_invariant stops detok eos
    (fun st => st.generated_text = st.yields.flatten) hstep
    (input.take max_tokens) initGenState (by simp [initGenState])
  simpa [genRun] using this

/-- C10: the completion status's generated_tokens counter always equals
the length of the generated token-id buffer; the counter and the buffer
are extended together for every accepted token — whatever the decode or
stop-checker outcome — and neither moves on an interrupt or EOS step. -/
theorem c10_token_counter_matches_ids :
    (∀ (stops : List (List Nat)) (detok : Nat → List Nat) (eos : Nat)
        (input : List (Bool × Nat)) (max_tokens : Nat),
      (genRun stops detok eos input max_tokens
          initGenState).generated_tokens =
        (genRun stops detok eos input max_tokens
          initGenState).generated_ids.length) ∧
    (∀ (stops : List (List Nat)) (detok : Nat → List Nat) (eos : Nat)
        (s : GenState) (x : Bool × Nat),
      s.generated_tokens = s.generated_ids.length →
      (genStep stops detok eos s x).generated_tokens =
        (genStep stops detok eos s x).generated_ids.length) ∧
    (∀ (stops : List (List Nat)) (detok : Nat → List Nat) (eos : Nat)
        (s : GenState) (tok : Nat), s.finished = false →
      (tok == eos) = false →
      (genStep stops detok eos s (false, tok)).generated_tokens =
        s.generated_tokens + 1 ∧
      (genStep stops detok eos s (false, tok)).generated_ids =
        s.generated_ids ++ [tok]) ∧
    (∀ (stops : List (List Nat)) (detok : Nat → List Nat) (eos : Nat)
        (s : GenState) (x : Bool × Nat), s.finished = false →
      (x.1 = true ∨ (x.2 == eos) = true) →
      (genStep stops detok eos s x).generated_tokens =
        s.generated_tokens ∧
      (genStep stops detok eos s x).generated_ids = s.generated_ids) := by
  have hstep : ∀ (stops : List (List Nat)) (detok : Nat → List Nat)
      (eos : Nat) (s : GenState) (x : Bool × Nat),
      s.generated_tokens = s.generated_ids.length →
      (genStep stops detok eos s x).generated_tokens =
        (genStep stops detok eos s x).generated_ids.length := by
    intro stops detok eos s x hs
    rcases genStep_shape stops detok eos s x with
      hc | hc | ⟨tok, _, hc | ⟨d, hc | hc | hc⟩⟩ <;>
      rw [hc] <;> simp [hs]
  refine ⟨?_, hstep, ?_, ?_⟩
  · intro stops detok eos input max_tokens
    have := foldl_genStep_invariant stops detok eos
      (fun st => st.generated_tokens = st.generated_ids.length)
      (hstep stops detok eos) (input.take max_tokens) initGenState
      (by simp [initGenState])
    simpa [genRun] using this
  · intro stops detok eos s tok hf he
    rcases hd : utf8Decode (s.byte_array ++ detok tok) with _ | d
    · rw [genStep_decode_fail hf he hd]; exact ⟨rfl, rfl⟩
    · rcases hs : stop_checker stops (s.text_buffer ++ d) with _ | b
      · rw [genStep_decoded_clear hf he hd hs]; exact ⟨rfl, rfl⟩
      · rcases b with _ | _
        · rw [genStep_decoded_withheld hf he hd hs]; exact ⟨rfl, rfl⟩
        · rw [genStep_decoded_matched hf he hd hs]; exact ⟨rfl, rfl⟩
  · intro stops detok eos s x hf hb
    rw [genStep_break hf hb]
    exact ⟨rfl, rfl⟩

/-- Witness for C10 at a concrete accepted token and a concrete EOS
step. -/
theorem c10_token_counter_matches_ids_witness :
    ((genStep [] (fun _ => [97]) 99 initGenState (false, 1)).generated_tokens =
        initGenState.generated_tokens + 1 ∧
      (genStep [] (fun _ => [97]) 99 initGenState (false, 1)).generated_ids =
        initGenState.generated_ids ++ [1]) ∧
    ((genStep [] (fun _ => [97]) 99 initGenState
        (false, 99)).generated_tokens = initGenState.generated_tokens ∧
      (genStep [] (fun _ => [97]) 99 initGenState (false, 99)).generated_ids =
        initGenState.generated_ids) :=
  ⟨c10_token_counter_matches_ids.2.2.1 [] (fun _ => [97]) 99 initGenState 1
      rfl rfl,
    c10_token_counter_matches_ids.2.2.2 [] (fun _ => [97]) 99 initGenState
      (false, 99) rfl (Or.inr rfl)⟩

/-- C5: on lookup, the cached state is loaded if and only if the longest
common prefix between the request ids and the cached key is strictly
longer than the longest common prefix between the request ids and the
backend's last-evaluated sequence (`_load_cache`); `longest_token_match_len`
really computes the longest-common-prefix length; and after the loop,
with a cache attached, the state is stored under the key
`input_ids ++ generated_ids`. -/
theorem c5_cache_load_iff_and_store_key :
    (∀ (item : CacheItem) (ids : List Nat) (client : LlamaClient),
      ∃ c2, _load_cache (.ok item) ids client = .ok c2 ∧
        c2.input_ids = client.input_ids ∧
        (c2.loads = client.loads ++ [item] ↔
          longest_token_match_len item.input_ids ids >
            longest_token_match_len client.input_ids ids) ∧
        (c2.loads = client.loads ↔
          ¬ longest_token_match_len item.input_ids ids >
              longest_token_match_len client.input_ids ids)) ∧
    (∀ a b : List Nat,
      a.take (longest_token_match_len a b) =
          b.take (longest_token_match_len a b) ∧
        longest_token_match_len a b ≤ a.length ∧
        longest_token_match_len a b ≤ b.length) ∧
    (∀ (a b : List Nat) (k : Nat), k ≤ a.length → k ≤ b.length →
      a.take k = b.take k → k ≤ longest_token_match_len a b) ∧
    (∀ (stops : List (List Nat)) (detok : Nat → List Nat) (eos : Nat)
        (input : List (Bool × Nat)) (max_tokens : Nat)
        (input_ids : List Nat),
      (generate_text_run true false stops detok eos input max_tokens
          input_ids).cache_store_key =
        some (input_ids ++
          (genRun stops detok eos input max_tokens
            initGenState).generated_ids) ∧
      (generate_text_run false false stops detok eos input max_tokens
          input_ids).cache_store_key = none) := by
  refine ⟨?_, ?_, longest_token_match_maximal, ?_⟩
  · intro item ids client
    by_cases hgt : longest_token_match_len item.input_ids ids >
        longest_token_match_len client.input_ids ids
    · refine ⟨load_state client item, by simp [_load_cache, hgt], rfl, ?_, ?_⟩
      · simp [load_state, hgt]
      · constructor
        · intro hload
          have := congrArg List.length hload
          simp [load_state] at this
        · intro hno; exact absurd hgt hno
    · refine ⟨client, by simp [_load_cache, hgt], rfl, ?_, by simp [hgt]⟩
      constructor
      · intro hload
        have := congrArg List.length hload
        simp at this
      · intro hyes; exact absurd hyes hgt
  · intro a b
    exact ⟨longest_token_match_take a b, longest_token_match_le_left a b,
      longest_token_match_le_right a b⟩
  · intro stops detok eos input max_tokens input_ids
    exact ⟨rfl, rfl⟩

/-- Witness for C5 at concrete inputs: a cache entry sharing a 2-token
prefix beats a backend warmed on 1 token, and the maximality part at a
concrete agreement of length 1. -/
theorem c5_cache_load_iff_and_store_key_witness :
    (∃ c2, _load_cache (.ok ⟨[1, 2, 3], 7⟩) [1, 2, 9] ⟨[1], []⟩ = .ok c2 ∧
      c2.input_ids = ([1] : List Nat) ∧
      (c2.loads = ([] : List CacheItem) ++ [⟨[1, 2, 3], 7⟩] ↔
        longest_token_match_len [1, 2, 3] [1, 2, 9] >
          longest_token_match_len [1] [1, 2, 9]) ∧
      (c2.loads = ([] : List CacheItem) ↔
        ¬ longest_token_match_len [1, 2, 3] [1, 2, 9] >
            longest_token_match_len [1] [1, 2, 9])) ∧
    (1 : Nat) ≤ longest_token_match_len [1, 2] [1, 3] :=
  ⟨c5_cache_load_iff_and_store_key.1 ⟨[1, 2, 3], 7⟩ [1, 2, 9] ⟨[1], []⟩,
    c5_cache_load_iff_and_store_key.2.2.1 [1, 2] [1, 3] 1 (by decide)
      (by decide) (by decide)⟩

end LlamaApi
